import Mathlib

/-!
Verification development for the beam-search token-scorer subsystem of the
speechbrain repository (`speechbrain/decoders/scorer.py`).

The Python source is shallowly embedded: tensors of log-probabilities become
functions `Nat → Nat → ℚ` over (hypothesis row, vocabulary id); tensors of
indices become `List Nat` / `List (List Nat)`; the opaque external
collaborators (the KenLM automaton, neural language models) are abstracted as
function parameters; fallible construction returns `Except String`.
-/

namespace SpeechBrain

/-- A score matrix, indexed by (hypothesis row, vocabulary id).
Embeds a `(batch_size x beam_size, vocab_size)` tensor. -/
abbrev Mat : Type := Nat → Nat → ℚ

/-- Pointwise addition of score matrices (`log_probs += score`). -/
def matAdd (a b : Mat) : Mat := fun i v => a i v + b i v

/-- Scaling of a score matrix by a weight (`score * self.weights[k]`). -/
def matScale (w : ℚ) (a : Mat) : Mat := fun i v => w * a i v

/-- A single in-place write `scores[i, v] = x` on a score matrix. -/
def matWrite (m : Mat) (i v : Nat) (x : ℚ) : Mat :=
  fun i' v' => if i' = i ∧ v' = v then x else m i' v'

/-- Functional update of a string-keyed memory dictionary
(`memory[k] = value`). -/
def updMem {μ : Type} (m : String → μ) (k : String) (v : μ) : String → μ :=
  fun k' => if k' = k then v else m k'

/-- Python `int(q)` on a rational: truncation toward zero. -/
def pyInt (q : ℚ) : Int := if 0 ≤ q then ⌊q⌋ else -⌊-q⌋

/-- Insert index `i` into an index list sorted descending by `row` value,
keeping earlier equal-valued indices first. -/
def insertDesc (row : Nat → ℚ) (i : Nat) : List Nat → List Nat
  | [] => [i]
  | j :: rest => if row j < row i then i :: j :: rest else j :: insertDesc row i rest

/-- Sort an index list in descending order of `row` value (insertion sort);
a deterministic model of the ordering `torch.topk` uses. -/
def sortIdxDesc (row : Nat → ℚ) (l : List Nat) : List Nat :=
  l.foldr (insertDesc row) []

/-- The `k` largest-valued vocabulary indices of one row
(`log_probs.topk(k, dim=-1)` restricted to one row, indices component). -/
def topkRow (k : Nat) (row : Nat → ℚ) (vocab_size : Nat) : List Nat :=
  (sortIdxDesc row (List.range vocab_size)).take k

/-- Row-wise top-k indices of a score matrix:
the `candidates` tensor of `ScorerBuilder.score`. -/
def topkMat (k : Nat) (m : Mat) (n_bh vocab_size : Nat) : List (List Nat) :=
  (List.range n_bh).map (fun i => topkRow k (m i) vocab_size)

/-! ## KenLMScorer (scorer.py lines 607-724)

The external KenLM automaton is abstracted: `σ` is the opaque LM state type
(`kenlm.State`), `baseScore s tok` is `scale * lm.BaseScore(s, id2char[tok],
out)` (the natural-log score, the `1/log10(e)` conversion factor absorbed),
and `nextState s tok` is the continuation state that `BaseScore` writes into
`out`. -/

/-- The sentinel for unreachable scores: `self.minus_inf = -1e20`. -/
def minus_inf : ℚ := -(10 ^ 20)

/-- The KenLM scorer instance: `vocab_size`, the initial `kenlm.State()`, and
the abstracted n-gram model interface. -/
structure KenLM (σ : Type) where
  vocab_size : Nat
  initState : σ
  baseScore : σ → Nat → ℚ
  nextState : σ → Nat → σ

/-- Result of one `KenLMScorer.score` call: the score matrix, the
`(n_bh, vocab_size)` object array of continuation states (`None`-initialized
cells modelled as `none`), and the new scoring-flag table. -/
structure KenLMScoreOut (σ : Type) where
  scores : Mat
  new_memory : Nat → Nat → Option σ
  new_scoring_table : Mat

/-- Inner loop of `KenLMScorer.score`: for each `token_id` in row `i`'s
candidate list, write the score, the continuation state and flag `1`. -/
def KenLM.scoreRow {σ : Type} (lm : KenLM σ) (i : Nat) (parent_state : σ)
    (cand : List Nat) (acc : KenLMScoreOut σ) : KenLMScoreOut σ :=
  cand.foldl
    (fun acc tok =>
      { scores := matWrite acc.scores i tok (lm.baseScore parent_state tok)
        new_memory := fun i' v' =>
          if i' = i ∧ v' = tok then some (lm.nextState parent_state tok)
          else acc.new_memory i' v'
        new_scoring_table := matWrite acc.new_scoring_table i tok 1 })
    acc

/-- `KenLMScorer.score`: scores start at `minus_inf` everywhere, the flag
table at `-1`; rows whose incoming scoring flag is `-1` are skipped
(`continue`); `memory = None` yields fresh states and flag `1` per row;
`candidates = None` means full-vocabulary scoring. -/
def KenLM.score {σ : Type} (lm : KenLM σ) (n_bh : Nat)
    (memory : Option (List σ × List ℚ)) (candidates : Option (List (List Nat))) :
    KenLMScoreOut σ :=
  let sm := memory.getD (List.replicate n_bh lm.initState, List.replicate n_bh 1)
  let state := sm.1
  let scoring_table := sm.2
  let cand := candidates.getD (List.replicate n_bh (List.range lm.vocab_size))
  (List.range n_bh).foldl
    (fun acc i =>
      if scoring_table.getD i 1 = -1 then acc
      else lm.scoreRow i (state.getD i lm.initState) (cand.getD i []) acc)
    { scores := fun _ _ => minus_inf
      new_memory := fun _ _ => none
      new_scoring_table := fun _ _ => -1 }

/-- `KenLMScorer.permute_mem`: memory is the `(batch*beam*vocab)`-flattened
state and flag arrays; `beam_size = index.shape[1]`,
`beam_offset = self.batch_index * beam_size`, and the selected flat slot is
`index + beam_offset[:, None] * vocab_size` (numpy precedence: only the
offset term is multiplied by `vocab_size`). -/
def KenLM.permute_mem {σ : Type} (lm : KenLM σ) (batch_index : List Nat)
    (state : List σ) (scoring_table : List ℚ) (index : List (List Nat)) :
    List σ × List ℚ :=
  let beam_size := (index.headD []).length
  let beam_offset := batch_index.map (· * beam_size)
  let hyp_index :=
    (List.zipWith (fun row off => row.map (fun idx => idx + off * lm.vocab_size))
      index beam_offset).flatten
  (hyp_index.map (fun h => state.getD h lm.initState),
   hyp_index.map (fun h => scoring_table.getD h 0))

/-- `KenLMScorer.reset_mem`: `self.batch_index = np.arange(batch_size)`. -/
def KenLM.reset_batch_index (batch_size : Nat) : List Nat :=
  List.range batch_size

/-! ## CoverageScorer (scorer.py lines 805-843) -/

/-- The attention-weight argument: either a 2-D `(n_bh, source_len)` tensor
(attentional RNN) or a 3-D `(n_bh, current_step, source_len)` tensor
(transformer). -/
inductive Attn where
  | dim2 (a : List (List ℚ))
  | dim3 (a : List (List (List ℚ)))

/-- `attn.size(0)`. -/
def Attn.rows : Attn → Nat
  | .dim2 a => a.length
  | .dim3 a => a.length

/-- `torch.sum(attn, dim=1)` over one row of a 3-D attention tensor. -/
def sumSteps (steps : List (List ℚ)) : List ℚ :=
  steps.foldl (fun acc row => List.zipWith (· + ·) acc row)
    (List.replicate (steps.headD []).length 0)

/-- The coverage update in `CoverageScorer.score`: a `None` coverage is a
zero tensor shaped like `attn`; a 3-D `attn` replaces the coverage by its
step-sum, a 2-D `attn` is accumulated onto the existing coverage. -/
def covUpdate (coverage : Option (List (List ℚ))) (attn : Attn) :
    List (List ℚ) :=
  match attn with
  | .dim3 a => a.map sumSteps
  | .dim2 a =>
    match coverage with
    | none => List.zipWith (List.zipWith (· + ·)) (a.map (List.map fun _ => (0 : ℚ))) a
    | some c => List.zipWith (List.zipWith (· + ·)) c a

/-- The coverage scorer instance state: configuration plus the hidden
per-instance step counter `self.time_step`. -/
structure CoverageScorer where
  vocab_size : Nat
  threshold : ℚ
  time_step : Nat

/-- `CoverageScorer.score`: increments the hidden `self.time_step`, updates
the coverage, and returns
`-(max(coverage, threshold).sum(-1) - source_len*threshold) / time_step`
broadcast over the vocabulary dimension, together with the new coverage
memory and the mutated instance. -/
def CoverageScorer.score (s : CoverageScorer)
    (coverage : Option (List (List ℚ))) (attn : Attn) :
    Mat × List (List ℚ) × CoverageScorer :=
  let ts := s.time_step + 1
  let cov := covUpdate coverage attn
  let penalty0 := cov.map (fun row => (row.map (fun x => max x s.threshold)).sum)
  let src_len := (cov.headD []).length
  let penalty1 := penalty0.map (fun p => p - src_len * s.threshold)
  (fun i _ => -1 * penalty1.getD i 0 / (ts : ℚ), cov,
   { s with time_step := ts })

/-- `CoverageScorer.permute_mem`: a row gather
`torch.index_select(coverage, dim=0, index)`. -/
def CoverageScorer.permute_mem (coverage : List (List ℚ)) (index : List Nat) :
    List (List ℚ) :=
  index.map (fun i => coverage.getD i [])

/-- `CoverageScorer.reset_mem`: zeroes the hidden step counter, null memory. -/
def CoverageScorer.reset_mem (s : CoverageScorer) : CoverageScorer :=
  { s with time_step := 0 }

/-! ## ScorerBuilder (scorer.py lines 868-1107) -/

/-- Canonicalization of a scorer class name:
`name.lower().split("scorer")[0]` — lower-case the characters and keep the
prefix before the first occurrence of `"scorer"`. -/
def matchesAt : List Char → List Char → Bool
  | [], _ => true
  | _ :: _, [] => false
  | p :: ps, c :: cs => p = c && matchesAt ps cs

/-- Characters before the first occurrence of the pattern. -/
def takeUntilPat (pat : List Char) : List Char → List Char
  | [] => []
  | c :: rest =>
    if matchesAt pat (c :: rest) then [] else c :: takeUntilPat pat rest

/-- `impl.__class__.__name__.lower().split("scorer")[0]`. -/
def canonicalName (s : String) : String :=
  String.mk (takeUntilPat "scorer".toList (s.toList.map Char.toLower))

/-- The scorer class names defined in the module whose name ends in
`"Scorer"` (the `globals()` introspection in `ScorerBuilder.__init__` finds
exactly these six classes). -/
def scorerClassNames : List String :=
  ["CTCScorer", "RNNLMScorer", "TransformerLMScorer", "KenLMScorer",
   "CoverageScorer", "LengthScorer"]

/-- `all_scorer_names`: the canonicalized known scorer-type names. -/
def all_scorer_names : List String := scorerClassNames.map canonicalName

/-- Boolean membership test on string lists (Python `in` on dict keys). -/
def memb (k : String) : List String → Bool
  | [] => false
  | a :: rest => if k = a then true else memb k rest

/-- Dictionary lookup with default 0.0 (`self.weights[k]` on the merged
weight table, every known name being present there; `0.0` is the
`init_weights` default, never reached for a key the table holds). -/
def wget : List (String × ℚ) → String → ℚ
  | [], _ => 0
  | (k, v) :: rest, key => if key = k then v else wget rest key

/-- `self.weights = {**init_weights, **weights}`: every known scorer name
mapped to the user weight when supplied (else the 0.0 default), followed by
any user keys outside the known names. -/
def mergedWeights (user : List (String × ℚ)) : List (String × ℚ) :=
  (all_scorer_names.map (fun k => (k, wget user k)))
    ++ user.filter (fun kv => !(memb kv.1 all_scorer_names))

/-- The constructed `ScorerBuilder` state relevant to validation: the merged
weight table and the canonical names of the registered scorer instances. -/
structure Builder where
  scorer_beam_scale : ℚ
  weights : List (String × ℚ)
  full_scorer_names : List String
  part_scorer_names : List String

/-- `ScorerBuilder._validate_scorer`, faithful to its control flow. -/
def Builder.validate_scorer (b : Builder) (scorer_names : List String) :
    Except String Unit :=
  if b.weights.length > scorer_names.length then
    Except.error "The keys of weights should be named in scorer_names"
  else if ¬ (0 ≤ wget b.weights "ctc" ∧ wget b.weights "ctc" ≤ 1) then
    Except.error "ctc_weight should not > 1.0 and < 0.0"
  else if wget b.weights "ctc" = 1 then
    if ¬ memb "ctc" b.full_scorer_names then
      Except.error "CTC scorer should be a full scorer when its weight is 1.0"
    else if wget b.weights "coverage" > 0 then
      Except.error "Pure CTC scorer does not have attention weights for coverage scorer"
    else Except.ok ()
  else Except.ok ()

/-- `ScorerBuilder.__init__` on the data the validation inspects: the
supplied weight dictionary, the class names of the full and partial scorer
instances, and the beam scale. The leading `assert` compares the weight
count with the scorer count; then names are canonicalized, weights merged
over the 0.0 defaults, and `_validate_scorer` is run. -/
def builderInit (weights : List (String × ℚ))
    (full_classes part_classes : List String) (scorer_beam_scale : ℚ) :
    Except String Builder :=
  if weights.length ≠ full_classes.length + part_classes.length then
    Except.error "Weights and scorers are not matched."
  else
    let b : Builder :=
      { scorer_beam_scale := scorer_beam_scale
        weights := mergedWeights weights
        full_scorer_names := full_classes.map canonicalName
        part_scorer_names := part_classes.map canonicalName }
    (b.validate_scorer all_scorer_names).map (fun _ => b)

/-- `ScorerBuilder.score`. Scorer instances are opaque collaborators: a full
scorer entry `(k, f)` models `impl.score(inp_tokens, memory[k], None, attn)`
as `f (memory k) : Mat × μ`; a partial scorer entry models
`impl.score(inp_tokens, memory[k], candidates, attn)` as a function of the
candidate tensor. Full scorers accumulate `weight * score` into `log_probs`
first; the candidates are the row-wise top `int(beam_size *
scorer_beam_scale)` indices of the fused result; partial scorers then
accumulate on those candidates. Returns the fused matrix, the new memory
dictionary entries, and the candidates. -/
def builderScore {μ : Type} (weights : String → ℚ)
    (fullScorers : List (String × (μ → Mat × μ)))
    (partScorers : List (String × (μ → List (List Nat) → Mat × μ)))
    (memory : String → μ) (log_probs : Mat)
    (beam_size : Nat) (scorer_beam_scale : ℚ) (n_bh vocab_size : Nat) :
    Mat × List (String × μ) × List (List Nat) :=
  let lp1 := fullScorers.foldl
    (fun lp ki => matAdd lp (matScale (weights ki.1) (ki.2 (memory ki.1)).1))
    log_probs
  let candidates :=
    topkMat (pyInt ((beam_size : ℚ) * scorer_beam_scale)).toNat lp1 n_bh vocab_size
  let lp2 := partScorers.foldl
    (fun lp ki =>
      matAdd lp (matScale (weights ki.1) (ki.2 (memory ki.1) candidates).1))
    lp1
  let new_memory :=
    fullScorers.map (fun ki => (ki.1, (ki.2 (memory ki.1)).2))
      ++ partScorers.map (fun ki => (ki.1, (ki.2 (memory ki.1) candidates).2))
  (lp2, new_memory, candidates)

/-- `ScorerBuilder.permute_scorer_mem`. A scorer entry `(k, f)` models
`impl.permute_mem` as `f : μ → ι → μ` on its memory and the chosen index
tensor. Full scorers named `"ctc"` or `"kenlm"` are permuted by
`candidates`; the remaining full scorers by `index`; every partial scorer by
`candidates`. -/
def permuteScorerMem {μ ι : Type}
    (fullScorers partScorers : List (String × (μ → ι → μ)))
    (memory : String → μ) (index candidates : ι) : String → μ :=
  let m1 := fullScorers.foldl
    (fun m ki =>
      if ki.1 = "ctc" ∨ ki.1 = "kenlm" then
        updMem m ki.1 (ki.2 (m ki.1) candidates)
      else updMem m ki.1 (ki.2 (m ki.1) index))
    memory
  partScorers.foldl (fun m ki => updMem m ki.1 (ki.2 (m ki.1) candidates)) m1

/-! ## General lemmas about the embedding's building blocks -/

theorem length_insertDesc (row : Nat → ℚ) (i : Nat) (l : List Nat) :
    (insertDesc row i l).length = l.length + 1 := by
  induction l with
  | nil => rfl
  | cons j rest ih => simp only [insertDesc]; split <;> simp [ih]

theorem mem_insertDesc (row : Nat → ℚ) (i x : Nat) (l : List Nat) :
    x ∈ insertDesc row i l ↔ x = i ∨ x ∈ l := by
  induction l with
  | nil => simp [insertDesc]
  | cons j rest ih => simp only [insertDesc]; split <;> (simp [ih]; try tauto)

theorem length_sortIdxDesc (row : Nat → ℚ) (l : List Nat) :
    (sortIdxDesc row l).length = l.length := by
  induction l with
  | nil => rfl
  | cons j rest ih =>
    simp [sortIdxDesc, List.foldr_cons, length_insertDesc] at ih ⊢; omega

theorem mem_sortIdxDesc (row : Nat → ℚ) (x : Nat) (l : List Nat) :
    x ∈ sortIdxDesc row l ↔ x ∈ l := by
  induction l with
  | nil => simp [sortIdxDesc]
  | cons j rest ih => simp [sortIdxDesc, mem_insertDesc] at ih ⊢; tauto

theorem topkRow_length (k : Nat) (row : Nat → ℚ) (V : Nat) (hk : k ≤ V) :
    (topkRow k row V).length = k := by
  simp [topkRow, List.length_take, length_sortIdxDesc, List.length_range]
  omega

theorem topkRow_mem_lt (k : Nat) (row : Nat → ℚ) (V x : Nat)
    (hx : x ∈ topkRow k row V) : x < V := by
  have := List.mem_of_mem_take hx
  rw [mem_sortIdxDesc, List.mem_range] at this
  exact this

theorem memb_iff (k : String) (l : List String) : memb k l = true ↔ k ∈ l := by
  induction l with
  | nil => simp [memb]
  | cons a t ih =>
    by_cases h : k = a <;> simp [memb, h, ih, List.mem_cons]

theorem wget_eq_zero_of_notMem (l : List (String × ℚ)) (key : String) :
    key ∉ l.map Prod.fst → wget l key = 0 := by
  induction l with
  | nil => intro _; rfl
  | cons x t ih =>
    intro h
    simp only [List.map_cons, List.mem_cons] at h
    push_neg at h
    cases x with
    | mk k v => simp only [wget, if_neg h.1]; exact ih h.2

theorem wget_map_mk_append (g : String → ℚ) (rest : List (String × ℚ))
    (name : String) :
    ∀ l : List String,
      wget (l.map (fun k => (k, g k)) ++ rest) name
        = if name ∈ l then g name else wget rest name := by
  intro l
  induction l with
  | nil => simp
  | cons a t ih =>
    by_cases h : name = a
    · simp [wget, h]
    · simp [wget, h, ih, List.mem_cons]

theorem headD_length_of_rect (l : List (List ℚ)) (L : Nat) (h0 : l ≠ [])
    (hrect : ∀ r ∈ l, r.length = L) : (l.headD []).length = L := by
  cases l with
  | nil => exact absurd rfl h0
  | cons r t => exact hrect r (by simp)

theorem getD_map_lt {α β : Type} (f : α → β) (l : List α) (n : Nat) (d : β)
    (d0 : α) (h : n < l.length) : (l.map f).getD n d = f (l.getD n d0) := by
  rw [List.getD_eq_getElem _ _ (by simpa using h), List.getElem_map,
    List.getD_eq_getElem _ _ h]

/-- Indexing into the flattening of a rectangular list of lists. -/
theorem flatten_getD_rect {α : Type} (m : Nat) (d : α) :
    ∀ (l : List (List α)) (b j : Nat), (∀ r ∈ l, r.length = m) →
      b < l.length → j < m →
      l.flatten.getD (b * m + j) d = (l.getD b []).getD j d := by
  intro l
  induction l with
  | nil => intro b j _ hb _; simp at hb
  | cons r t ih =>
    intro b j hrect hb hj
    have hr : r.length = m := hrect r (by simp)
    cases b with
    | zero =>
      simp only [List.flatten_cons, Nat.zero_mul, Nat.zero_add]
      rw [List.getD_append _ _ _ _ (by omega)]
      rfl
    | succ b' =>
      simp only [List.flatten_cons]
      rw [List.getD_append_right _ _ _ _ (by
        have : m ≤ (b' + 1) * m := Nat.le_mul_of_pos_left m (by omega)
        omega)]
      have harith : (b' + 1) * m + j - r.length = b' * m + j := by
        rw [hr]; ring_nf; omega
      rw [harith]
      exact ih b' j (fun s hs => hrect s (by simp [hs])) (by simpa using hb) hj

/-- Folding memory updates over a keyed list leaves unmentioned keys alone. -/
theorem foldl_updMem_notMem {α μ : Type} (key : α → String)
    (body : (String → μ) → α → μ) :
    ∀ (l : List α) (m : String → μ) (k : String), k ∉ l.map key →
      (l.foldl (fun m a => updMem m (key a) (body m a)) m) k = m k := by
  intro l
  induction l with
  | nil => intro m k _; rfl
  | cons a t ih =>
    intro m k hk
    simp only [List.map_cons, List.mem_cons] at hk
    push_neg at hk
    rw [List.foldl_cons, ih _ _ hk.2]
    simp [updMem, hk.1]

/-- Folding memory updates over a keyed list with pairwise-distinct keys:
the entry of a listed key is its body applied to the original memory,
provided the body reads memory only at its own key. -/
theorem foldl_updMem_lookup {α μ : Type} (key : α → String)
    (body : (String → μ) → α → μ)
    (hread : ∀ m m' a, m (key a) = m' (key a) → body m a = body m' a) :
    ∀ (l : List α) (m : String → μ) (a : α), a ∈ l → (l.map key).Nodup →
      (l.foldl (fun m a => updMem m (key a) (body m a)) m) (key a) = body m a := by
  intro l
  induction l with
  | nil => intro m a ha _; simp at ha
  | cons b t ih =>
    intro m a ha hnd
    simp only [List.map_cons, List.nodup_cons] at hnd
    rw [List.foldl_cons]
    rcases List.mem_cons.mp ha with hab | hat
    · subst hab
      have hk : key a ∉ t.map key := hnd.1
      rw [foldl_updMem_notMem key body t _ _ hk]
      simp [updMem]
    · have hne : key a ≠ key b := by
        intro he
        exact hnd.1 (he ▸ List.mem_map_of_mem key hat)
      rw [ih _ _ hat hnd.2]
      exact hread _ _ _ (by simp [updMem, hne])

theorem foldl_matAdd_full {μ : Type} (weights : String → ℚ) (memory : String → μ) :
    ∀ (l : List (String × (μ → Mat × μ))) (m : Mat) (i v : Nat),
      (l.foldl (fun lp ki => matAdd lp (matScale (weights ki.1) (ki.2 (memory ki.1)).1)) m) i v
        = m i v + (l.map (fun ki => weights ki.1 * ((ki.2 (memory ki.1)).1 i v))).sum := by
  intro l
  induction l with
  | nil => intro m i v; simp
  | cons a t ih =>
    intro m i v
    rw [List.foldl_cons, ih]
    simp [matAdd, matScale]
    ring

theorem foldl_matAdd_part {μ : Type} (weights : String → ℚ) (memory : String → μ)
    (c : List (List Nat)) :
    ∀ (l : List (String × (μ → List (List Nat) → Mat × μ))) (m : Mat) (i v : Nat),
      (l.foldl (fun lp ki => matAdd lp (matScale (weights ki.1) (ki.2 (memory ki.1) c).1)) m) i v
        = m i v + (l.map (fun ki => weights ki.1 * ((ki.2 (memory ki.1) c).1 i v))).sum := by
  intro l
  induction l with
  | nil => intro m i v; simp
  | cons a t ih =>
    intro m i v
    rw [List.foldl_cons, ih]
    simp [matAdd, matScale]
    ring

/-! ## Claim theorems -/

/-- C2: the fused log-probability matrix returned by `ScorerBuilder.score`
equals the unweighted input `log_probs` plus, for each registered full and
partial scorer, its weight times its raw score matrix (so a zero-weighted
scorer contributes the term `0 * score = 0`); and the candidate set handed
to the partial scorers is the row-wise top-k of the *fused* full-scorer
result (input plus all weighted full-scorer contributions), so full scorers
accumulate before candidate selection and partial scorers run only
afterwards on that candidate set. -/
theorem builder_score_fusion_additivity {μ : Type} (weights : String → ℚ)
    (fullScorers : List (String × (μ → Mat × μ)))
    (partScorers : List (String × (μ → List (List Nat) → Mat × μ)))
    (memory : String → μ) (log_probs : Mat)
    (beam_size : Nat) (scorer_beam_scale : ℚ) (n_bh vocab_size : Nat) (i v : Nat) :
    (builderScore weights fullScorers partScorers memory log_probs
        beam_size scorer_beam_scale n_bh vocab_size).1 i v
      = log_probs i v
        + (fullScorers.map (fun ki => weights ki.1 * ((ki.2 (memory ki.1)).1 i v))).sum
        + (partScorers.map (fun ki => weights ki.1 *
            ((ki.2 (memory ki.1)
              (builderScore weights fullScorers partScorers memory log_probs
                beam_size scorer_beam_scale n_bh vocab_size).2.2).1 i v))).sum
    ∧ (builderScore weights fullScorers partScorers memory log_probs
        beam_size scorer_beam_scale n_bh vocab_size).2.2
      = topkMat (pyInt ((beam_size : ℚ) * scorer_beam_scale)).toNat
          (fun i v => log_probs i v
            + (fullScorers.map (fun ki => weights ki.1 * ((ki.2 (memory ki.1)).1 i v))).sum)
          n_bh vocab_size := by
  have hlp1 : (fullScorers.foldl
      (fun lp ki => matAdd lp (matScale (weights ki.1) (ki.2 (memory ki.1)).1)) log_probs)
      = (fun i v => log_probs i v
          + (fullScorers.map (fun ki => weights ki.1 * ((ki.2 (memory ki.1)).1 i v))).sum) :=
    funext fun i => funext fun v => foldl_matAdd_full weights memory fullScorers log_probs i v
  constructor
  · simp only [builderScore, hlp1]
    rw [foldl_matAdd_part]
  · simp only [builderScore, hlp1]

/-- C3 counterexample: with beam size 5 and the default scorer beam scale
1.5, the code selects `int(5 * 1.5) = 7` candidates per row (truncation),
not `round(5 * 1.5) = 8` as the claim states. -/
theorem candidate_count_cex :
    ¬ (((((builderScore (fun _ => 0)
            ([] : List (String × (Unit → Mat × Unit)))
            ([] : List (String × (Unit → List (List Nat) → Mat × Unit)))
            (fun _ => ()) (fun _ _ => 0) 5 (3/2) 1 8).2.2).getD 0 []).length : Int)
        = round ((5 : ℚ) * (3/2))) := by
  have h1 : round ((5 : ℚ) * (3/2)) = 8 := by norm_num [round_eq]
  have h2 : (pyInt ((5 : ℚ) * (3/2))).toNat = 7 := by
    have h : pyInt ((5 : ℚ) * (3/2)) = 7 := by norm_num [pyInt]
    rw [h]; rfl
  have h3 : (((builderScore (fun _ => 0)
        ([] : List (String × (Unit → Mat × Unit)))
        ([] : List (String × (Unit → List (List Nat) → Mat × Unit)))
        (fun _ => ()) (fun _ _ => 0) 5 (3/2) 1 8).2.2).getD 0 [])
      = topkRow 7 (fun _ => (0 : ℚ)) 8 := by
    simp [builderScore, topkMat, h2]
  rw [h3, h1, topkRow_length 7 _ 8 (by norm_num)]
  norm_num

/-- C3 (amended): the candidate set passed to the partial scorers has
exactly `int(beam_size * scorer_beam_scale)` entries per hypothesis row —
Python `int` truncation, not rounding — with every entry in
`[0, vocab_size)`, whenever that count does not exceed the vocabulary size. -/
theorem candidate_count_trunc {μ : Type} (weights : String → ℚ)
    (fullScorers : List (String × (μ → Mat × μ)))
    (partScorers : List (String × (μ → List (List Nat) → Mat × μ)))
    (memory : String → μ) (log_probs : Mat)
    (beam_size : Nat) (scorer_beam_scale : ℚ) (n_bh vocab_size : Nat)
    (hk : (pyInt ((beam_size : ℚ) * scorer_beam_scale)).toNat ≤ vocab_size) :
    ((builderScore weights fullScorers partScorers memory log_probs
        beam_size scorer_beam_scale n_bh vocab_size).2.2).length = n_bh
    ∧ ∀ row ∈ (builderScore weights fullScorers partScorers memory log_probs
        beam_size scorer_beam_scale n_bh vocab_size).2.2,
        row.length = (pyInt ((beam_size : ℚ) * scorer_beam_scale)).toNat
        ∧ ∀ x ∈ row, x < vocab_size := by
  constructor
  · simp [builderScore, topkMat]
  · intro row hrow
    simp only [builderScore, topkMat, List.mem_map] at hrow
    obtain ⟨j, _, rfl⟩ := hrow
    exact ⟨topkRow_length _ _ _ hk, fun x hx => topkRow_mem_lt _ _ _ _ hx⟩

/-- C3 witness: a concrete instantiation of the amended candidate-count
theorem at beam size 5, scale 1.5, vocabulary size 8. -/
theorem candidate_count_trunc_witness :
    ((builderScore (fun _ => 0)
        ([] : List (String × (Unit → Mat × Unit)))
        ([] : List (String × (Unit → List (List Nat) → Mat × Unit)))
        (fun _ => ()) (fun _ _ => 0) 5 (3/2) 1 8).2.2).length = 1 :=
  (candidate_count_trunc (fun _ => 0) [] [] (fun _ => ()) (fun _ _ => 0)
    5 (3/2) 1 8 (by
      have h : pyInt (((5 : Nat) : ℚ) * (3/2)) = 7 := by norm_num [pyInt]
      rw [h]; norm_num)).1

/-- C1 counterexample: with `batch_size=2, beam_size=3, vocab_size=5`,
identity state array `0..29`, `index[0][0] = 1` and batch row 0, the code
selects flat slot `1 + (0*3)*5 = 1` (holding state value `1`), not the
claimed `(1 + 0*3) * 5 = 5` (holding state value `5`): numpy precedence
multiplies only the batch-offset term by `vocab_size`. -/
theorem kenlm_permute_flat_addressing_cex :
    ¬ ((((⟨5, 0, fun _ _ => 0, fun _ _ => 0⟩ : KenLM Nat).permute_mem
          (KenLM.reset_batch_index 2) (List.range 30)
          ((List.range 30).map fun n => (n : ℚ)) [[1,0,0],[0,0,0]]).1.getD 0 0)
        = (List.range 30).getD
            (((([[1,0,0],[0,0,0]] : List (List Nat)).getD 0 []).getD 0 0 + 0 * 3) * 5) 0) := by
  decide

/-- C1 (amended): in `KenLMScorer.permute_mem` (after `reset_mem` set
`batch_index = arange(batch_size)`), the flat slot selected into the
flattened `(batch*beam*vocab)`-length state and scored-flag arrays for batch
row `b`, beam slot `j` is `index[b][j] + (b*beam_size)*vocab_size`: only the
batch-offset term is scaled by `vocab_size`, the incoming index already
addressing the row-local `(beam*vocab)`-flattened space. -/
theorem kenlm_permute_flat_addressing {σ : Type} (lm : KenLM σ)
    (batch beam : Nat) (state : List σ) (scoring_table : List ℚ)
    (index : List (List Nat)) (b j : Nat)
    (hlen : index.length = batch) (hrows : ∀ r ∈ index, r.length = beam)
    (hb : b < batch) (hj : j < beam) :
    (lm.permute_mem (KenLM.reset_batch_index batch) state scoring_table index).1.getD
        (b * beam + j) lm.initState
      = state.getD ((index.getD b []).getD j 0 + b * beam * lm.vocab_size) lm.initState
    ∧ (lm.permute_mem (KenLM.reset_batch_index batch) state scoring_table index).2.getD
        (b * beam + j) 0
      = scoring_table.getD ((index.getD b []).getD j 0 + b * beam * lm.vocab_size) 0 := by
  have hbs : (index.headD []).length = beam := by
    cases index with
    | nil => simp at hlen; omega
    | cons r t => exact hrows r (by simp)
  have hoff : ((List.range batch).map (· * beam)).length = batch := by
    simp
  have hZlen : (List.zipWith
      (fun row off => row.map (fun idx => idx + off * lm.vocab_size))
      index ((List.range batch).map (· * beam))).length = batch := by
    simp [List.length_zipWith, hlen]
  have hZrect : ∀ r ∈ List.zipWith
      (fun row off => row.map (fun idx => idx + off * lm.vocab_size))
      index ((List.range batch).map (· * beam)), r.length = beam := by
    intro r hr
    obtain ⟨i, hi, rfl⟩ := List.mem_iff_getElem.mp hr
    rw [List.getElem_zipWith]
    simp only [List.length_map]
    exact hrows _ (List.getElem_mem _)
  have hflatlen : (List.zipWith
      (fun row off => row.map (fun idx => idx + off * lm.vocab_size))
      index ((List.range batch).map (· * beam))).flatten.length = batch * beam := by
    rw [List.length_flatten]
    have hrep : (List.zipWith
        (fun row off => row.map (fun idx => idx + off * lm.vocab_size))
        index ((List.range batch).map (· * beam))).map List.length
        = List.replicate batch beam := by
      apply List.eq_replicate_iff.mpr
      refine ⟨by simp [hZlen], ?_⟩
      intro x hx
      obtain ⟨r, hr, rfl⟩ := List.mem_map.mp hx
      exact hZrect r hr
    rw [hrep, List.sum_replicate, smul_eq_mul]
  have hpos : b * beam + j < batch * beam := by
    calc b * beam + j < b * beam + beam := by omega
    _ = (b + 1) * beam := by ring
    _ ≤ batch * beam := Nat.mul_le_mul_right beam (by omega)
  have hsel : (List.zipWith
      (fun row off => row.map (fun idx => idx + off * lm.vocab_size))
      index ((List.range batch).map (· * beam))).flatten.getD (b * beam + j) 0
      = (index.getD b []).getD j 0 + b * beam * lm.vocab_size := by
    rw [flatten_getD_rect beam 0 _ b j hZrect (by omega) hj]
    have hZb : (List.zipWith
        (fun row off => row.map (fun idx => idx + off * lm.vocab_size))
        index ((List.range batch).map (· * beam))).getD b []
        = (index.getD b []).map (fun idx => idx + b * beam * lm.vocab_size) := by
      rw [List.getD_eq_getElem _ _ (by omega), List.getElem_zipWith,
        List.getD_eq_getElem _ _ (by omega)]
      simp only [List.getElem_map, List.getElem_range]
    rw [hZb]
    have hjlen : j < (index.getD b []).length := by
      rw [List.getD_eq_getElem _ _ (by omega)]
      rw [hrows _ (List.getElem_mem _)]
      exact hj
    rw [List.getD_eq_getElem _ _ (by simpa using hjlen), List.getElem_map]
    rw [List.getD_eq_getElem _ _ hjlen]
  have main : ∀ {α : Type} (arr : List α) (d : α),
      (((List.zipWith
          (fun row off => row.map (fun idx => idx + off * lm.vocab_size))
          index ((List.range batch).map (· * beam))).flatten.map
            (fun h => arr.getD h d)).getD (b * beam + j) d)
        = arr.getD ((index.getD b []).getD j 0 + b * beam * lm.vocab_size) d := by
    intro α arr d
    rw [getD_map_lt _ _ _ _ 0 (by rw [hflatlen]; exact hpos)]
    rw [hsel]
  simp only [KenLM.permute_mem, KenLM.reset_batch_index, hbs]
  exact ⟨main state lm.initState, main scoring_table 0⟩

/-- C1 witness: the amended flat-addressing theorem instantiated at
`batch_size=2, beam_size=3, vocab_size=5`, batch row 0, beam slot 0 with
`index[0][0] = 1`: the selected slot is `1 + (0*3)*5 = 1`. -/
theorem kenlm_permute_flat_addressing_witness :
    ((⟨5, 0, fun _ _ => 0, fun _ _ => 0⟩ : KenLM Nat).permute_mem
        (KenLM.reset_batch_index 2) (List.range 30)
        ((List.range 30).map fun n => (n : ℚ)) [[1,0,0],[0,0,0]]).1.getD
        (0 * 3 + 0) (0 : Nat)
      = (List.range 30).getD
          ((([[1,0,0],[0,0,0]] : List (List Nat)).getD 0 []).getD 0 0 + 0 * 3 * 5) 0 :=
  (kenlm_permute_flat_addressing (⟨5, 0, fun _ _ => 0, fun _ _ => 0⟩ : KenLM Nat)
    2 3 (List.range 30) ((List.range 30).map fun n => (n : ℚ))
    [[1,0,0],[0,0,0]] 0 0 (by decide) (by decide) (by decide) (by decide)).1

theorem kenlm_scoreRow_scores {σ : Type} (lm : KenLM σ) (i : Nat) (p : σ) :
    ∀ (cand : List Nat) (acc : KenLMScoreOut σ) (i' v' : Nat),
      (lm.scoreRow i p cand acc).scores i' v'
        = if i' = i ∧ v' ∈ cand then lm.baseScore p v' else acc.scores i' v' := by
  intro cand
  induction cand with
  | nil => intro acc i' v'; simp [KenLM.scoreRow]
  | cons t ts ih =>
    intro acc i' v'
    have hcons : lm.scoreRow i p (t :: ts) acc
        = lm.scoreRow i p ts
            { scores := matWrite acc.scores i t (lm.baseScore p t)
              new_memory := fun i' v' =>
                if i' = i ∧ v' = t then some (lm.nextState p t)
                else acc.new_memory i' v'
              new_scoring_table := matWrite acc.new_scoring_table i t 1 } := rfl
    rw [hcons, ih]
    by_cases hi : i' = i
    · subst hi
      by_cases hts : v' ∈ ts
      · simp [hts, List.mem_cons, matWrite]
      · by_cases hvt : v' = t
        · subst hvt; simp [hts, List.mem_cons, matWrite]
        · simp [hts, hvt, List.mem_cons, matWrite]
    · simp [hi, matWrite]

theorem kenlm_score_scores_spec {σ : Type} (lm : KenLM σ) (state : List σ)
    (scoring_table : List ℚ) (cs : List (List Nat)) :
    ∀ (n i v : Nat),
      ((List.range n).foldl
        (fun acc i =>
          if scoring_table.getD i 1 = -1 then acc
          else lm.scoreRow i (state.getD i lm.initState) (cs.getD i []) acc)
        { scores := fun _ _ => minus_inf
          new_memory := fun _ _ => none
          new_scoring_table := fun _ _ => -1 }).scores i v
      = if i < n ∧ ¬ scoring_table.getD i 1 = -1 ∧ v ∈ cs.getD i []
        then lm.baseScore (state.getD i lm.initState) v else minus_inf := by
  intro n
  induction n with
  | zero => intro i v; simp
  | succ n ihn =>
    intro i v
    rw [List.range_succ, List.foldl_append]
    simp only [List.foldl_cons, List.foldl_nil]
    by_cases hskip : scoring_table.getD n 1 = -1
    · rw [if_pos hskip, ihn]
      by_cases hin : i = n
      · subst hin
        rw [if_neg (fun h => absurd h.1 (Nat.lt_irrefl i)),
          if_neg (fun h => h.2.1 hskip)]
      · have hlt : (i < n) ↔ (i < n + 1) := by omega
        simp only [hlt]
    · rw [if_neg hskip, kenlm_scoreRow_scores, ihn]
      by_cases hin : i = n
      · subst hin
        by_cases hv : v ∈ cs.getD i []
        · rw [if_pos ⟨rfl, hv⟩, if_pos ⟨Nat.lt_succ_self i, hskip, hv⟩]
        · rw [if_neg (fun h => hv h.2),
            if_neg (fun h => absurd h.1 (Nat.lt_irrefl i)),
            if_neg (fun h => hv h.2.2)]
      · have hlt : (i < n) ↔ (i < n + 1) := by omega
        have hne : ¬ (i = n ∧ v ∈ cs.getD n []) := fun h => hin h.1
        rw [if_neg hne]
        simp only [hlt]

/-- C6: when `KenLMScorer.score` runs in partial mode (`candidates` not
`None`), every vocabulary id outside row `i`'s candidate list keeps exactly
the sentinel `-1e20` (the finite constant `-(10^20)`, not a true negative
infinity) in the returned score matrix, and a row whose incoming scored-flag
equals `-1` is skipped entirely, all of its scores staying at the
sentinel. -/
theorem kenlm_partial_masking {σ : Type} (lm : KenLM σ) (n_bh : Nat)
    (state : List σ) (scoring_table : List ℚ) (cs : List (List Nat))
    (i v : Nat) (hi : i < n_bh) :
    (scoring_table.getD i 1 = -1 →
      (lm.score n_bh (some (state, scoring_table)) (some cs)).scores i v
        = minus_inf)
    ∧ (v ∉ cs.getD i [] →
      (lm.score n_bh (some (state, scoring_table)) (some cs)).scores i v
        = minus_inf)
    ∧ minus_inf = -(10 ^ 20) := by
  have hunfold : (lm.score n_bh (some (state, scoring_table)) (some cs)).scores i v
      = ((List.range n_bh).foldl
          (fun acc i =>
            if scoring_table.getD i 1 = -1 then acc
            else lm.scoreRow i (state.getD i lm.initState) (cs.getD i []) acc)
          { scores := fun _ _ => minus_inf
            new_memory := fun _ _ => none
            new_scoring_table := fun _ _ => -1 }).scores i v := rfl
  rw [hunfold, kenlm_score_scores_spec]
  refine ⟨fun hdead => ?_, fun hout => ?_, rfl⟩
  · exact if_neg (fun h => h.2.1 hdead)
  · exact if_neg (fun h => hout h.2.2)

/-- C6 witness: a two-row instance (`vocab_size = 3`) where row 1 is dead
(flag `-1`) and row 0 has candidate list `[0]`: vocabulary id 2 of row 0
(outside the candidates) and id 1 of the dead row 1 both score exactly
`-(10^20)`. -/
theorem kenlm_partial_masking_witness :
    (((⟨3, 0, fun _ _ => 7, fun _ _ => 0⟩ : KenLM Nat).score 2
        (some ([0, 0], [1, -1])) (some [[0], [0]])).scores 0 2 = minus_inf)
    ∧ (((⟨3, 0, fun _ _ => 7, fun _ _ => 0⟩ : KenLM Nat).score 2
        (some ([0, 0], [1, -1])) (some [[0], [0]])).scores 1 1 = minus_inf) := by
  constructor
  · exact (kenlm_partial_masking (⟨3, 0, fun _ _ => 7, fun _ _ => 0⟩ : KenLM Nat)
      2 [0, 0] [1, -1] [[0], [0]] 0 2 (by norm_num)).2.1 (by decide)
  · exact (kenlm_partial_masking (⟨3, 0, fun _ _ => 7, fun _ _ => 0⟩ : KenLM Nat)
      2 [0, 0] [1, -1] [[0], [0]] 1 1 (by norm_num)).1 (by norm_num [List.getD])

/-- C5 counterexample: `CoverageScorer.score` is not pure in its arguments:
the instance `⟨vocab_size 1, threshold 1/2, time_step 0⟩` called twice with
the identical arguments (`memory = None`, `attn = [[1]]`) returns `-1/2`
from the first call and `-1/4` from the second, because the hidden
`self.time_step` counter incremented between the calls. -/
theorem coverage_score_hidden_state_cex :
    ¬ (((⟨1, 1/2, 0⟩ : CoverageScorer).score none (Attn.dim2 [[1]])).1 0 0
      = ((((⟨1, 1/2, 0⟩ : CoverageScorer).score none (Attn.dim2 [[1]])).2.2).score
          none (Attn.dim2 [[1]])).1 0 0) := by
  norm_num [CoverageScorer.score, covUpdate, max_def]

/-- C5 (amended): every scorer call is a deterministic function of its
arguments and the instance state; the only hidden per-instance state the
coverage scorer carries outside the threaded memory is the step counter
`self.time_step`, which increments by one per call and enters the result
only as the `1/time_step` normalization: two instances with the same
threshold given identical arguments return scores agreeing after
multiplying out the step normalization, identical new coverage memories,
and a post-call counter of exactly `time_step + 1`. -/
theorem coverage_score_hidden_time_step (s s' : CoverageScorer)
    (ht : s.threshold = s'.threshold)
    (coverage : Option (List (List ℚ))) (attn : Attn) (i v : Nat) :
    ((s.score coverage attn).1 i v) * ((s.time_step + 1 : Nat) : ℚ)
      = ((s'.score coverage attn).1 i v) * ((s'.time_step + 1 : Nat) : ℚ)
    ∧ (s.score coverage attn).2.1 = (s'.score coverage attn).2.1
    ∧ (s.score coverage attn).2.2.time_step = s.time_step + 1 := by
  have h0 : ∀ t : Nat, ((t + 1 : Nat) : ℚ) ≠ 0 := fun t => by positivity
  refine ⟨?_, ?_, rfl⟩
  · simp only [CoverageScorer.score]
    rw [div_mul_cancel₀ _ (h0 s.time_step), div_mul_cancel₀ _ (h0 s'.time_step), ht]
  · simp only [CoverageScorer.score]

/-- C5 witness: the amended hidden-time-step theorem at two concrete
coverage-scorer instances differing only in their step counters. -/
theorem coverage_score_hidden_time_step_witness :
    ((⟨1, 1/2, 0⟩ : CoverageScorer).score none (Attn.dim2 [[1]])).1 0 0
        * (((0 : Nat) + 1 : Nat) : ℚ)
      = ((⟨1, 1/2, 4⟩ : CoverageScorer).score none (Attn.dim2 [[1]])).1 0 0
        * (((4 : Nat) + 1 : Nat) : ℚ)
    ∧ ((⟨1, 1/2, 0⟩ : CoverageScorer).score none (Attn.dim2 [[1]])).2.1
      = ((⟨1, 1/2, 4⟩ : CoverageScorer).score none (Attn.dim2 [[1]])).2.1
    ∧ ((⟨1, 1/2, 0⟩ : CoverageScorer).score none (Attn.dim2 [[1]])).2.2.time_step
      = 0 + 1 :=
  coverage_score_hidden_time_step ⟨1, 1/2, 0⟩ ⟨1, 1/2, 4⟩ rfl none
    (Attn.dim2 [[1]]) 0 0

/-- C7: at decoding step `time_step + 1`, the coverage scorer returns for
hypothesis row `i` exactly
`-(sum over source positions of max(coverage, threshold) - L * threshold) /
step`, where the coverage is the freshly accumulated one (also returned as
the new memory) and `L` is the common source length; the value is broadcast
unchanged over the whole vocabulary dimension. -/
theorem coverage_penalty_formula (s : CoverageScorer)
    (coverage : Option (List (List ℚ))) (attn : Attn) (L i v w : Nat)
    (hrect : ∀ row ∈ covUpdate coverage attn, row.length = L)
    (hi : i < (covUpdate coverage attn).length) :
    (s.score coverage attn).1 i v
      = -((((covUpdate coverage attn).getD i []).map
            (fun x => max x s.threshold)).sum - (L : ℚ) * s.threshold)
          / ((s.time_step + 1 : Nat) : ℚ)
    ∧ (s.score coverage attn).1 i v = (s.score coverage attn).1 i w
    ∧ (s.score coverage attn).2.1 = covUpdate coverage attn := by
  refine ⟨?_, rfl, rfl⟩
  simp only [CoverageScorer.score]
  have hhead : ((covUpdate coverage attn).headD []).length = L :=
    headD_length_of_rect _ L (List.ne_nil_of_length_pos (by omega)) hrect
  rw [hhead, List.map_map]
  rw [List.getD_eq_getElem _ _ (by rw [List.length_map]; exact hi),
    List.getElem_map]
  rw [show (covUpdate coverage attn)[i] = (covUpdate coverage attn).getD i []
    from (List.getD_eq_getElem _ _ hi).symm]
  simp only [Function.comp]
  ring

/-- C7 witness: the coverage-penalty formula at a concrete one-row,
one-source-position instance with threshold 1/2 at step 1. -/
theorem coverage_penalty_formula_witness :
    ((⟨3, 1/2, 0⟩ : CoverageScorer).score none (Attn.dim2 [[1]])).1 0 0
      = -((((covUpdate none (Attn.dim2 [[1]])).getD 0 []).map
            (fun x => max x (1/2))).sum - ((1 : Nat) : ℚ) * (1/2))
          / (((0 : Nat) + 1 : Nat) : ℚ) :=
  (coverage_penalty_formula ⟨3, 1/2, 0⟩ none (Attn.dim2 [[1]]) 1 0 0 2
    (by simp [covUpdate]) (by simp [covUpdate])).1

/-- C4: `ScorerBuilder.permute_scorer_mem` routes the permutation tensors
as the fixed exception rule dictates: a full scorer whose canonical name is
`"ctc"` or `"kenlm"` has its memory permuted by `candidates` (the selected
vocabulary indices), every other full scorer by `index` (the beam-lineage
indices), and every partial scorer by `candidates`. -/
theorem permute_scorer_mem_routing {μ ι : Type}
    (fullScorers partScorers : List (String × (μ → ι → μ)))
    (memory : String → μ) (index candidates : ι)
    (hf : (fullScorers.map Prod.fst).Nodup)
    (hp : (partScorers.map Prod.fst).Nodup) :
    (∀ k f, (k, f) ∈ fullScorers → k ∉ partScorers.map Prod.fst →
      permuteScorerMem fullScorers partScorers memory index candidates k
        = f (memory k) (if k = "ctc" ∨ k = "kenlm" then candidates else index))
    ∧ (∀ k f, (k, f) ∈ partScorers → k ∉ fullScorers.map Prod.fst →
      permuteScorerMem fullScorers partScorers memory index candidates k
        = f (memory k) candidates) := by
  have hbody : (fun (m : String → μ) (ki : String × (μ → ι → μ)) =>
      if ki.1 = "ctc" ∨ ki.1 = "kenlm" then updMem m ki.1 (ki.2 (m ki.1) candidates)
      else updMem m ki.1 (ki.2 (m ki.1) index))
      = (fun m ki => updMem m ki.1
          (ki.2 (m ki.1) (if ki.1 = "ctc" ∨ ki.1 = "kenlm" then candidates else index))) := by
    funext m ki
    by_cases h : ki.1 = "ctc" ∨ ki.1 = "kenlm" <;> simp [h]
  simp only [permuteScorerMem, hbody]
  constructor
  · intro k f hkf hknp
    rw [foldl_updMem_notMem Prod.fst _ partScorers _ _ hknp]
    exact foldl_updMem_lookup Prod.fst
      (fun (m : String → μ) (ki : String × (μ → ι → μ)) => ki.2 (m ki.1)
        (if ki.1 = "ctc" ∨ ki.1 = "kenlm" then candidates else index))
      (fun m m' a h => by simp only [h]) fullScorers memory (k, f) hkf hf
  · intro k f hkf hknf
    rw [foldl_updMem_lookup Prod.fst
      (fun (m : String → μ) (ki : String × (μ → ι → μ)) => ki.2 (m ki.1) candidates)
      (fun m m' a h => by simp only [h]) partScorers _ (k, f) hkf hp]
    rw [foldl_updMem_notMem Prod.fst _ fullScorers memory k hknf]

/-- C4 witness: the routing theorem at a concrete three-scorer setup
(`ctc` and `rnnlm` full, `length` partial): `ctc` is permuted by the
candidate tensor `20`, `rnnlm` by the lineage tensor `10`, and the partial
`length` scorer by the candidate tensor `20`. -/
theorem permute_scorer_mem_routing_witness :
    (permuteScorerMem
        [("ctc", fun (v : ℚ) (i : Nat) => v + i), ("rnnlm", fun v i => v * i)]
        [("length", fun v i => v - i)] (fun _ => 2) 10 20 "ctc"
      = (fun (v : ℚ) (i : Nat) => v + i) ((fun _ => (2 : ℚ)) "ctc")
          (if "ctc" = "ctc" ∨ "ctc" = "kenlm" then 20 else 10))
    ∧ (permuteScorerMem
        [("ctc", fun (v : ℚ) (i : Nat) => v + i), ("rnnlm", fun v i => v * i)]
        [("length", fun v i => v - i)] (fun _ => 2) 10 20 "rnnlm"
      = (fun (v : ℚ) (i : Nat) => v * i) ((fun _ => (2 : ℚ)) "rnnlm")
          (if "rnnlm" = "ctc" ∨ "rnnlm" = "kenlm" then 20 else 10))
    ∧ (permuteScorerMem
        [("ctc", fun (v : ℚ) (i : Nat) => v + i), ("rnnlm", fun v i => v * i)]
        [("length", fun v i => v - i)] (fun _ => 2) 10 20 "length"
      = (fun (v : ℚ) (i : Nat) => v - i) ((fun _ => (2 : ℚ)) "length") 20) :=
  ⟨(permute_scorer_mem_routing _ _ (fun _ => 2) 10 20 (by decide) (by decide)).1
      "ctc" _ (List.mem_cons_self _ _) (by decide),
   (permute_scorer_mem_routing _ _ (fun _ => 2) 10 20 (by decide) (by decide)).1
      "rnnlm" _ (List.mem_cons_of_mem _ (List.mem_cons_self _ _)) (by decide),
   (permute_scorer_mem_routing _ _ (fun _ => 2) 10 20 (by decide) (by decide)).2
      "length" _ (List.mem_cons_self _ _) (by decide)⟩

/-! ## Builder construction validation -/

theorem isOk_error {ε α : Type} (e : ε) :
    (Except.error e : Except ε α).isOk = false := rfl

theorem isOk_ok {ε α : Type} (a : α) :
    (Except.ok a : Except ε α).isOk = true := rfl

theorem isOk_map {ε α β : Type} (f : α → β) (e : Except ε α) :
    (e.map f).isOk = e.isOk := by
  cases e <;> rfl

/-- The introspected scorer names evaluate to the six canonical strings. -/
theorem all_scorer_names_eval :
    all_scorer_names
      = ["ctc", "rnnlm", "transformerlm", "kenlm", "coverage", "length"] := by
  decide

/-- The merged weight table answers a known scorer name with the
user-supplied weight (default 0.0 when the user omitted the key). -/
theorem wget_mergedWeights (user : List (String × ℚ)) (name : String)
    (h : name ∈ all_scorer_names) :
    wget (mergedWeights user) name = wget user name := by
  rw [mergedWeights, wget_map_mk_append, if_pos h]

theorem mergedWeights_length (user : List (String × ℚ)) :
    (mergedWeights user).length
      = all_scorer_names.length
        + (user.filter (fun kv => !(memb kv.1 all_scorer_names))).length := by
  simp [mergedWeights]

/-- The leading count assertion of `ScorerBuilder.__init__` (shared
helper). -/
theorem builderInit_count_ne (weights : List (String × ℚ))
    (full_classes part_classes : List String) (scale : ℚ)
    (h : weights.length ≠ full_classes.length + part_classes.length) :
    builderInit weights full_classes part_classes scale
      = Except.error "Weights and scorers are not matched." := by
  simp [builderInit, h]

/-- C10: `ScorerBuilder.__init__` starts with
`assert len(weights) == len(full_scorers) + len(partial_scorers)`: whenever
the weight count differs from the scorer-instance count, construction
raises immediately with the assertion message, regardless of the keys. -/
theorem builder_weight_count_mismatch (weights : List (String × ℚ))
    (full_classes part_classes : List String) (scale : ℚ)
    (h : weights.length ≠ full_classes.length + part_classes.length) :
    builderInit weights full_classes part_classes scale
      = Except.error "Weights and scorers are not matched." :=
  builderInit_count_ne weights full_classes part_classes scale h

/-- C10 witness: two weight entries, both valid scorer-type names, but only
one scorer instance — construction fails on the count assertion. -/
theorem builder_weight_count_mismatch_witness :
    builderInit [("ctc", 1/2), ("coverage", 1/2)] ["CTCScorer"] [] (3/2)
      = Except.error "Weights and scorers are not matched." :=
  builder_weight_count_mismatch _ _ _ _ (by simp)

/-- C8 counterexample: with `weights={"ctc": 1.0, "coverage": -1/2}` and
both scorers full, construction succeeds even though the CTC weight is
exactly 1.0 and the coverage weight is nonzero: the code only rejects a
coverage weight strictly greater than 0. -/
theorem builder_ctc_validation_cex :
    (builderInit [("ctc", 1), ("coverage", -(1/2))]
        ["CTCScorer", "CoverageScorer"] [] (3/2)).isOk = true
    ∧ wget (mergedWeights [("ctc", 1), ("coverage", -(1/2))]) "ctc" = 1
    ∧ ¬ wget (mergedWeights [("ctc", 1), ("coverage", -(1/2))]) "coverage" = 0 := by
  have hmw : mergedWeights [("ctc", (1 : ℚ)), ("coverage", -(1/2))]
      = [("ctc", 1), ("rnnlm", 0), ("transformerlm", 0), ("kenlm", 0),
         ("coverage", -(1/2)), ("length", 0)] := by
    rw [mergedWeights, all_scorer_names_eval]
    simp [wget, memb]
  have hnames : ["CTCScorer", "CoverageScorer"].map canonicalName
      = ["ctc", "coverage"] := by decide
  have hctc : wget [("ctc", (1 : ℚ)), ("rnnlm", 0), ("transformerlm", 0),
      ("kenlm", 0), ("coverage", -(1/2)), ("length", 0)] "ctc" = 1 := by
    simp [wget]
  have hcov : wget [("ctc", (1 : ℚ)), ("rnnlm", 0), ("transformerlm", 0),
      ("kenlm", 0), ("coverage", -(1/2)), ("length", 0)] "coverage"
      = -(1/2) := by
    simp [wget]
  refine ⟨?_, ?_, ?_⟩
  · simp only [builderInit, hnames]
    rw [if_neg (by norm_num)]
    rw [isOk_map]
    rw [Builder.validate_scorer]
    rw [hmw, all_scorer_names_eval]
    rw [hctc, hcov]
    norm_num [memb, isOk_ok, isOk_error]
  · rw [hmw]; exact hctc
  · rw [hmw, hcov]; norm_num

/-- C8 (amended): construction fails whenever the merged CTC weight lies
outside `[0, 1]`; whenever it is exactly 1.0 and `"ctc"` is not among the
full scorers; and whenever it is exactly 1.0 and the coverage weight is
strictly positive (the code tests `coverage > 0.0`, so — contrary to the
claim — a nonzero *negative* coverage weight is not rejected). -/
theorem builder_ctc_weight_validation (weights : List (String × ℚ))
    (full_classes part_classes : List String) (scale : ℚ) :
    (¬ (0 ≤ wget (mergedWeights weights) "ctc"
          ∧ wget (mergedWeights weights) "ctc" ≤ 1) →
      (builderInit weights full_classes part_classes scale).isOk = false)
    ∧ (wget (mergedWeights weights) "ctc" = 1 →
        ¬ memb "ctc" (full_classes.map canonicalName) →
      (builderInit weights full_classes part_classes scale).isOk = false)
    ∧ (wget (mergedWeights weights) "ctc" = 1 →
        wget (mergedWeights weights) "coverage" > 0 →
      (builderInit weights full_classes part_classes scale).isOk = false) := by
  by_cases hcnt : weights.length = full_classes.length + part_classes.length
  · have hinit : (builderInit weights full_classes part_classes scale).isOk
        = (Builder.validate_scorer
            { scorer_beam_scale := scale
              weights := mergedWeights weights
              full_scorer_names := full_classes.map canonicalName
              part_scorer_names := part_classes.map canonicalName }
            all_scorer_names).isOk := by
      simp [builderInit, hcnt, isOk_map]
    refine ⟨fun hrange => ?_, fun hone hnotfull => ?_, fun hone hcov => ?_⟩ <;>
      rw [hinit] <;> simp only [Builder.validate_scorer] <;>
      split_ifs <;> simp_all [isOk_error, isOk_ok]
  · have herr := builderInit_count_ne weights full_classes
      part_classes scale hcnt
    refine ⟨fun _ => ?_, fun _ _ => ?_, fun _ _ => ?_⟩ <;>
      rw [herr] <;> exact isOk_error _

/-- C8 witness: the amended validation theorem at the three concrete
failing configurations: CTC weight 1.5; CTC weight 1.0 with only an RNNLM
full scorer; CTC weight 1.0 with a (strictly positive) coverage weight. -/
theorem builder_ctc_weight_validation_witness :
    (builderInit [("ctc", 3/2)] ["CTCScorer"] [] (3/2)).isOk = false
    ∧ (builderInit [("ctc", 1)] ["RNNLMScorer"] [] (3/2)).isOk = false
    ∧ (builderInit [("ctc", 1), ("coverage", 1/2)]
        ["CTCScorer", "CoverageScorer"] [] (3/2)).isOk = false :=
  ⟨(builder_ctc_weight_validation [("ctc", 3/2)] ["CTCScorer"] [] (3/2)).1
      (by rw [wget_mergedWeights _ _ (by decide)]; simp [wget]; norm_num),
   (builder_ctc_weight_validation [("ctc", 1)] ["RNNLMScorer"] [] (3/2)).2.1
      (by rw [wget_mergedWeights _ _ (by decide)]; simp [wget])
      (by decide),
   (builder_ctc_weight_validation [("ctc", 1), ("coverage", 1/2)]
      ["CTCScorer", "CoverageScorer"] [] (3/2)).2.2
      (by rw [wget_mergedWeights _ _ (by decide)]; simp [wget])
      (by rw [wget_mergedWeights _ _ (by decide)]; simp [wget])⟩

/-- C9 counterexample: `weights={"coverage": 0.5}` with a single full
`LengthScorer` — the length scorer's canonical name `"length"` has no entry
among the supplied weight keys, yet construction succeeds (the merged
default table silently gives it weight 0.0), contradicting the claim that
such a construction fails. -/
theorem builder_weight_key_validation_cex :
    (builderInit [("coverage", 1/2)] ["LengthScorer"] [] (3/2)).isOk = true
    ∧ canonicalName "LengthScorer" = "length"
    ∧ "length" ∉ ([("coverage", (1/2 : ℚ))].map Prod.fst)
    ∧ wget (mergedWeights [("coverage", (1/2 : ℚ))]) "length" = 0 := by
  have hmw : mergedWeights [("coverage", (1/2 : ℚ))]
      = [("ctc", 0), ("rnnlm", 0), ("transformerlm", 0), ("kenlm", 0),
         ("coverage", 1/2), ("length", 0)] := by
    rw [mergedWeights, all_scorer_names_eval]
    simp [wget, memb]
  have hnames : ["LengthScorer"].map canonicalName = ["length"] := by decide
  have hctc : wget [("ctc", (0 : ℚ)), ("rnnlm", 0), ("transformerlm", 0),
      ("kenlm", 0), ("coverage", 1/2), ("length", 0)] "ctc" = 0 := by
    simp [wget]
  refine ⟨?_, by decide, by decide, by rw [hmw]; simp [wget]⟩
  simp only [builderInit, hnames]
  rw [if_neg (by norm_num)]
  rw [isOk_map]
  rw [Builder.validate_scorer]
  rw [hmw, all_scorer_names_eval]
  rw [hctc]
  norm_num [isOk_ok, isOk_error]

/-- C9 (amended): construction does validate that every supplied weight key
is a known scorer-type name (a foreign key inflates the merged table past
the known-name count and fails the first validation check) and that the
weight count matches the scorer count; but a scorer instance whose
canonical name is absent from the supplied weight keys does *not* fail
construction — the merged table silently assigns it the default weight
0.0. -/
theorem builder_weight_key_validation (weights : List (String × ℚ))
    (full_classes part_classes : List String) (scale : ℚ) :
    ((∃ kv ∈ weights, memb kv.1 all_scorer_names = false) →
      (builderInit weights full_classes part_classes scale).isOk = false)
    ∧ (∀ name, name ∈ all_scorer_names → name ∉ weights.map Prod.fst →
        wget (mergedWeights weights) name = 0) := by
  constructor
  · intro hbad
    by_cases hcnt : weights.length = full_classes.length + part_classes.length
    · have hlen : all_scorer_names.length < (mergedWeights weights).length := by
        rw [mergedWeights_length]
        obtain ⟨kv, hkv, hkvbad⟩ := hbad
        have : kv ∈ weights.filter (fun kv => !(memb kv.1 all_scorer_names)) :=
          List.mem_filter.mpr ⟨hkv, by rw [hkvbad]; rfl⟩
        have := List.length_pos_of_mem this
        omega
      simp [builderInit, hcnt, isOk_map, Builder.validate_scorer, hlen,
        isOk_error]
    · rw [builderInit_count_ne weights full_classes part_classes scale hcnt]
      exact isOk_error _
  · intro name hknown hmissing
    rw [wget_mergedWeights weights name hknown]
    exact wget_eq_zero_of_notMem weights name hmissing

/-- C9 witness: the amended theorem at concrete inputs: a foreign weight
key `"bogus"` fails construction, and the known name `"length"` absent from
the supplied keys receives the silent default weight 0.0. -/
theorem builder_weight_key_validation_witness :
    (builderInit [("bogus", (1 : ℚ))] ["CTCScorer"] [] (3/2)).isOk = false
    ∧ wget (mergedWeights [("coverage", (1/2 : ℚ))]) "length" = 0 :=
  ⟨(builder_weight_key_validation [("bogus", (1 : ℚ))] ["CTCScorer"] []
      (3/2)).1 ⟨("bogus", 1), by simp, by decide⟩,
   (builder_weight_key_validation [("coverage", (1/2 : ℚ))] [] [] (3/2)).2
      "length" (by decide) (by simp)⟩

end SpeechBrain
